import Mathlib

/-! dogreport: the dedup filter of `main` and the report renderer.

A shallow embedding of `src/dogreport.go` (`main`'s filter loop, `printTable`,
`produceWalkReport`, `produceReport`) together with the parts of Go's
`strconv` package the renderer calls (`Atoi`, `Itoa`).

Conventions.
* A Go `map[K]V` is a list of key/value pairs whose keys are pairwise
  distinct; the list order is the order in which `range` enumerates the map
  (Go leaves it unspecified, so theorems quantify over it).
* Text written to standard output is returned as a `String`.
* `int` is 64 bits wide (`intSize`); machine integers are `Int`/`Nat` with
  explicit wrap-around where the library code can overflow.
* `float64`/`float32` values are carried as their IEEE-754 bit patterns and
  are only ever formatted; the `fmt.Sprintf` float verbs are parameters
  (`FloatFmt`).
-/

namespace DogReport

/-! ## Go maps as association lists -/

/-- Go `m[k]` in its two-valued form `v, ok := m[k]`: the first binding of `k`. -/
def mapGet? {K V : Type} [DecidableEq K] : List (K × V) → K → Option V
  | [], _ => none
  | (k', v) :: rest, k => if k' = k then some v else mapGet? rest k

/-- Go `m[k]`: the bound value, or the zero value `zero` when `k` is absent. -/
def mapGet {K V : Type} [DecidableEq K] (zero : V) (m : List (K × V)) (k : K) : V :=
  (mapGet? m k).getD zero

/-- Go `m[k] = v`: overwrite the binding of `k` if there is one, else add one. -/
def mapSet {K V : Type} [DecidableEq K] : List (K × V) → K → V → List (K × V)
  | [], k, v => [(k, v)]
  | (k', v') :: rest, k, v =>
    if k' = k then (k, v) :: rest else (k', v') :: mapSet rest k v

/-- The keys of a map, in enumeration order. -/
def mapKeys {K V : Type} (m : List (K × V)) : List K := m.map Prod.fst

/-- Well-formedness of a map: no key is bound twice. -/
def NodupKeys {K V : Type} (m : List (K × V)) : Prop := (mapKeys m).Nodup

instance {K V : Type} [DecidableEq K] (m : List (K × V)) : Decidable (NodupKeys m) := by
  unfold NodupKeys; infer_instance

/-! ## `strconv` -/

/-- Width of Go's `int` (`strconv.IntSize`). -/
def intSize : Nat := 64

/-- Largest `int`. -/
def maxInt : Int := 2 ^ (intSize - 1) - 1

/-- Smallest `int`. -/
def minInt : Int := -(2 ^ (intSize - 1))

/-- The two errors of `strconv` (`ErrSyntax`, `ErrRange`). -/
inductive NumError where
  | syntaxErr
  | rangeErr
  deriving DecidableEq, Repr

/-- The byte `'0' + d`. -/
def digitChar (d : Nat) : Char := Char.ofNat (48 + d)

/-- `strconv.ParseUint(s, 10, bitSize)`, the loop over the bytes of `s` with
the running value `n` (a `uint64`); returns the value and the error, as Go
does: `0` with a syntax error, `maxVal` with a range error. -/
def parseUintLoop (maxVal : Nat) : List Char → Nat → Nat × Option NumError
  | [], n => (n, none)
  | c :: cs, n =>
    if c.toNat < 48 ∨ 57 < c.toNat then (0, some NumError.syntaxErr)
    else
      let d := c.toNat - 48
      -- cutoff = maxUint64/10 + 1: n*10 would overflow
      if (2 ^ 64 - 1) / 10 + 1 ≤ n then (maxVal, some NumError.rangeErr)
      else
        let n10 := (n * 10) % 2 ^ 64
        let n1 := (n10 + d) % 2 ^ 64
        if n1 < n10 ∨ maxVal < n1 then (maxVal, some NumError.rangeErr)
        else parseUintLoop maxVal cs n1

/-- `strconv.ParseUint(s, 10, bitSize)` for `bitSize = intSize`. -/
def parseUint (s : List Char) : Nat × Option NumError :=
  if s = [] then (0, some NumError.syntaxErr)
  else parseUintLoop (2 ^ intSize - 1) s 0

/-- Conversion `int64(un)` of a `uint64`. -/
def toInt64 (un : Nat) : Int :=
  if un % 2 ^ 64 < 2 ^ 63 then (un % 2 ^ 64 : Nat) else (un % 2 ^ 64 : Nat) - 2 ^ 64

/-- Negation of an `int64`, with wrap-around. -/
def negInt64 (n : Int) : Int :=
  if n = -(2 ^ 63) then n else -n

/-- `strconv.ParseInt(s, 10, 0)`. -/
def parseInt (s : List Char) : Int × Option NumError :=
  match s with
  | [] => (0, some NumError.syntaxErr)
  | c :: cs =>
    let neg : Bool := c = '-'
    let body := if c = '+' ∨ c = '-' then cs else c :: cs
    match parseUint body with
    | (_, some NumError.syntaxErr) => (0, some NumError.syntaxErr)
    | (un, _) =>
      let cutoff : Nat := 2 ^ (intSize - 1)
      if neg = false ∧ cutoff ≤ un then (((cutoff - 1 : Nat) : Int), some NumError.rangeErr)
      else if neg = true ∧ cutoff < un then (-((cutoff : Nat) : Int), some NumError.rangeErr)
      else
        let n := toInt64 un
        (if neg then negInt64 n else n, none)

/-- `strconv.Atoi(s)`: `ParseInt(s, 10, 0)` converted to `int`; the value is
returned alongside the error. -/
def Atoi (s : String) : Int × Option NumError := parseInt s.data

/-- Decimal digits of `n`, most significant first, put in front of `acc`
(`strconv.formatBits` for base 10; `fuel` bounds the number of digits). -/
def formatDigits : Nat → Nat → List Char → List Char
  | 0, _, acc => acc
  | fuel + 1, n, acc =>
    let acc' := digitChar (n % 10) :: acc
    if n / 10 = 0 then acc' else formatDigits fuel (n / 10) acc'

/-- `strconv.Itoa(i)`: the canonical decimal rendering of `i`. -/
def Itoa (i : Int) : String :=
  if i < 0 then String.mk ('-' :: formatDigits 20 i.natAbs [])
  else String.mk (formatDigits 20 i.natAbs [])

/-! ## `wagapi` records -/

/-- A `float64`, as its IEEE-754 bit pattern (`0` is the zero value `+0.0`). -/
structure Float64 where
  bits : Nat
  deriving DecidableEq, Repr

/-- A `float32`, as its IEEE-754 bit pattern (`0` is the zero value `+0.0`). -/
structure Float32 where
  bits : Nat
  deriving DecidableEq, Repr

/-- The float verbs of `fmt.Sprintf` used by the renderer. -/
structure FloatFmt where
  /-- Verb `%.2f` on a `float64`. -/
  f2 : Float64 → String
  /-- Verb `%.3f` on a `float32`. -/
  f3 : Float32 → String

/-- One element of `Walk.Invoice.Charges`. -/
structure Charge where
  Amount : Float64
  Description : String
  deriving DecidableEq, Repr

/-- Record `wagapi.Walker`. -/
structure Walker where
  CurrentLat : Float64
  CurrentLon : Float64
  Lat : Float64
  Lon : Float64
  Bio : String
  FirstName : String
  ID : Int
  Picture : String
  WalkCompletedCount : Int
  Gender : String
  Rating : Float32
  Thumb : String
  Video : String
  deriving DecidableEq, Repr

/-- Record `wagapi.Walk` (`Charges` is `Invoice.Charges`). -/
structure Walk where
  Date : String
  Distance : Float64
  Charges : List Charge
  IsPee : Int
  IsPoo : Int
  IsDoorLocked : Int
  Note : String
  Payout : Float64
  PhotoURL : String
  Tip : Float64
  Total : Float64
  WalkCompleted : String
  WalkEnd : String
  WalkMap : String
  WalkStart : String
  WalkStarted : String
  WalkerID : Int
  deriving DecidableEq, Repr

/-- The zero value of `wagapi.Walker`. -/
def zeroWalker : Walker :=
  { CurrentLat := ⟨0⟩, CurrentLon := ⟨0⟩, Lat := ⟨0⟩, Lon := ⟨0⟩, Bio := "", FirstName := "",
    ID := 0, Picture := "", WalkCompletedCount := 0, Gender := "", Rating := ⟨0⟩, Thumb := "",
    Video := "" }

/-- The zero value of `wagapi.Walk`. -/
def zeroWalk : Walk :=
  { Date := "", Distance := ⟨0⟩, Charges := [], IsPee := 0, IsPoo := 0, IsDoorLocked := 0,
    Note := "", Payout := ⟨0⟩, PhotoURL := "", Tip := ⟨0⟩, Total := ⟨0⟩, WalkCompleted := "",
    WalkEnd := "", WalkMap := "", WalkStart := "", WalkStarted := "", WalkerID := 0 }

/-! ## The renderer (`src/dogreport.go`) -/

/-- Function `printTable`. -/
def printTable (data : List (List String)) : String :=
  let ans := "<table>\n"
  let ans := data.foldl
    (fun ans row =>
      let ans := ans ++ "<tr>\n"
      let ans := row.foldl (fun ans datum => ans ++ ("<td>" ++ datum ++ "</td>")) ans
      ans ++ "\n</tr>\n")
    ans
  ans ++ "</table>"

/-- The two rows `subTitle`, `vals` built by the loop over `walk.Invoice.Charges`
in `produceWalkReport`. -/
def chargeRows (fmt : FloatFmt) (charges : List Charge) : List String × List String :=
  charges.foldl
    (fun acc charge => (acc.1 ++ [charge.Description], acc.2 ++ [fmt.f2 charge.Amount]))
    ([], [])

/-- The value of `tableContents` at the end of `produceWalkReport`: the rows of
the walk's outer table. -/
def tableContents (fmt : FloatFmt) (walk : Walk) (walker : Walker) : List (List String) :=
  let tableContents : List (List String) := []
  let title := "<b>" ++ walk.Date ++ "</b>"
  let tableContents := tableContents ++ [[title]]
  let thumb := "<img src=\"" ++ walker.Thumb ++ "\" width=\"50px\">"
  let completeCount := Itoa walker.WalkCompletedCount
  let rating := fmt.f3 walker.Rating
  let data := [[thumb, walker.FirstName, rating, completeCount]]
  let tableContents := tableContents ++ [[printTable data]]
  let photo := "<a href=\"" ++ walk.PhotoURL ++ "\"><img src=\"" ++ walk.PhotoURL
    ++ "\" width=\"600px\"></a>"
  let mapx := "<a href=\"" ++ walk.WalkMap ++ "\"><img src=\"" ++ walk.WalkMap
    ++ "\" width=\"600px\"></a>"
  let data := [[photo], [mapx]]
  let tableContents := tableContents ++ [[printTable data]]
  let locked := Itoa walk.IsDoorLocked
  let peed := Itoa walk.IsPee
  let pood := Itoa walk.IsPoo
  let dist := fmt.f2 walk.Distance ++ " miles"
  let data := [["door locked", "peed", "pood", "distance"], [locked, peed, pood, dist]]
  let tableContents := tableContents ++ [[printTable data]]
  let payout := fmt.f2 walk.Payout
  let tip := fmt.f2 walk.Tip
  let total := fmt.f2 walk.Total
  let data := [["payout", "tip", "total"], [payout, tip, total]]
  let tableContents := tableContents ++ [[printTable data]]
  let rows := chargeRows fmt walk.Charges
  let data := [rows.1, rows.2]
  let tableContents := tableContents ++ [[printTable data]]
  let data := [["scheduled start", "start", "end", "scheduled end"],
    [walk.WalkStart, walk.WalkStarted, walk.WalkCompleted, walk.WalkEnd]]
  let tableContents := tableContents ++ [[printTable data]]
  tableContents ++ [[walk.Note]]

/-- Function `produceWalkReport`: the text it prints. -/
def produceWalkReport (fmt : FloatFmt) (walk : Walk) (walker : Walker) : String :=
  printTable (tableContents fmt walk walker) ++ "\n"

/-- The call `sort.Sort(sort.Reverse(sort.IntSlice(ids)))`: `ids` rearranged in
descending order. -/
def sortReverse (ids : List Int) : List Int :=
  ids.insertionSort (fun a b => b ≤ a)

/-- The slice `walkIds` of `produceReport` before sorting: the integer
`strconv.Atoi` returns for each key, its error discarded. -/
def walkIds (walks : List (String × Walk)) : List Int :=
  walks.foldl (fun ids p => ids ++ [(Atoi p.1).1]) []

/-- What one iteration of the second loop of `produceReport` prints for the
integer `key`. -/
def reportSection (fmt : FloatFmt) (walks : List (String × Walk))
    (walkers : List (Int × Walker)) (key : Int) : String :=
  let keyString := Itoa key
  let walk := mapGet zeroWalk walks keyString
  let walker := mapGet zeroWalker walkers walk.WalkerID
  produceWalkReport fmt walk walker ++ "<hr>\n"

/-- First two lines printed by `produceReport`. -/
def reportHeader : String :=
  "<html><body>\n" ++ "<style>table, th, td { border: 1px solid black; }</style>\n"

/-- Last line printed by `produceReport`. -/
def reportFooter : String := "</body></html>\n"

/-- Function `produceReport`: the text it prints. -/
def produceReport (fmt : FloatFmt) (walks : List (String × Walk))
    (walkers : List (Int × Walker)) : String :=
  if walks.length = 0 then ""
  else
    let ids := sortReverse (walkIds walks)
    let out := ids.foldl (fun out key => out ++ reportSection fmt walks walkers key) reportHeader
    out ++ reportFooter

/-! ## The dedup filter (the loop of `main`) -/

/-- The variables the loop of `main` updates, and the trace of the calls
`apiClient.LookupWalkerInt64` it makes (oldest first). -/
structure FilterState where
  reportedWalks : List (String × Bool)
  walksToReport : List (String × Walk)
  walkers : List (Int × Walker)
  lookups : List Int

/-- The state on entry to the loop: `set.ReportedWalks` as loaded (an absent
map is made empty), `walksToReport` and `walkers` freshly made. -/
def filterInit (reported : List (String × Bool)) : FilterState :=
  { reportedWalks := reported, walksToReport := [], walkers := [], lookups := [] }

/-- One iteration of the loop of `main`; `lookupWalker` is
`apiClient.LookupWalkerInt64`. -/
def filterStep (lookupWalker : Int → Walker) (st : FilterState) (p : String × Walk) :
    FilterState :=
  let walkID := p.1
  let walk := p.2
  if mapGet false st.reportedWalks walkID = false then
    let reportedWalks := mapSet st.reportedWalks walkID true
    let walksToReport := mapSet st.walksToReport walkID walk
    let walkerID := walk.WalkerID
    if (mapGet? st.walkers walkerID).isSome = false then
      { reportedWalks := reportedWalks, walksToReport := walksToReport,
        walkers := mapSet st.walkers walkerID (lookupWalker walkerID),
        lookups := st.lookups ++ [walkerID] }
    else
      { st with reportedWalks := reportedWalks, walksToReport := walksToReport }
  else st

/-- The loop of `main` over `allWalks`, visited in list order. -/
def dedupFilter (lookupWalker : Int → Walker) (allWalks : List (String × Walk))
    (reported : List (String × Bool)) : FilterState :=
  allWalks.foldl (filterStep lookupWalker) (filterInit reported)


/-! ## Predicates and text pieces used in the statements -/

/-- What the loop of `main` maintains between `walksToReport`, `ReportedWalks`,
`walkers` and the trace of walker lookups. -/
structure FilterInv (lw : Int → Walker) (st : FilterState) : Prop where
  marked : ∀ k ∈ mapKeys st.walksToReport, mapGet false st.reportedWalks k = true
  once : st.lookups.Nodup
  fetched : st.walkers = st.lookups.map (fun id => (id, lw id))
  needed : ∀ id, id ∈ st.lookups ↔ ∃ p ∈ st.walksToReport, p.2.WalkerID = id

/-- A key is canonical when it is what `strconv.Itoa` writes for some `int`. -/
def Canonical (key : String) : Prop :=
  ∃ n : Int, minInt ≤ n ∧ n ≤ maxInt ∧ key = Itoa n

/-- The text of one cell of a table. -/
def cellText (datum : String) : String := "<td>" ++ datum ++ "</td>"

/-- The text of one row of a table. -/
def rowText (row : List String) : String :=
  "<tr>\n" ++ String.join (row.map cellText) ++ "\n</tr>\n"

/-! ## Sample inputs -/

/-- A float formatting for evaluating the renderer on concrete inputs. -/
def sampleFmt : FloatFmt := ⟨fun _ => "0.00", fun _ => "0.000"⟩

/-- A walk that differs from the zero value in its date and its walker. -/
def sampleWalk (date : String) (walkerID : Int) : Walk :=
  { zeroWalk with Date := date, WalkerID := walkerID }

/-- A walker lookup for evaluating the filter on concrete inputs. -/
def sampleLookup (id : Int) : Walker := { zeroWalker with ID := id }

/-- Three walks under canonical keys whose numeric and lexicographic orders differ. -/
def sampleAll : List (String × Walk) :=
  [("99", sampleWalk "d99" 5), ("100", sampleWalk "d100" 6), ("20", sampleWalk "d20" 5)]

/-- A `ReportedWalks` map that marks walk `"99"`. -/
def sampleReported : List (String × Bool) := [("99", true)]

/-- A walker profile that differs from the zero value in its first name. -/
def sampleProfile : Walker := { zeroWalker with FirstName := "Zero" }

/-- Three walks under keys of which only the first is canonical. -/
def sampleOdd : List (String × Walk) :=
  [("7", sampleWalk "seven" 5), ("007", sampleWalk "double-o-seven" 6),
   ("abc", sampleWalk "letters" 5)]

/-! ## Facts about maps -/

theorem mapGet?_mapSet {K V : Type} [DecidableEq K] (m : List (K × V)) (k k' : K) (v : V) :
    mapGet? (mapSet m k v) k' = if k = k' then some v else mapGet? m k' := by
  induction m with
  | nil => simp [mapSet, mapGet?]
  | cons hd tl ih =>
    obtain ⟨a, b⟩ := hd
    by_cases h : a = k
    · subst h
      by_cases h' : a = k' <;> simp [mapSet, mapGet?, h']
    · by_cases h' : a = k'
      · subst h'
        simp [mapSet, mapGet?, h, Ne.symm h]
      · simp [mapSet, mapGet?, h, h', ih]

theorem mapGet_mapSet {K V : Type} [DecidableEq K] (zero : V) (m : List (K × V)) (k k' : K)
    (v : V) : mapGet zero (mapSet m k v) k' = if k = k' then v else mapGet zero m k' := by
  unfold mapGet
  rw [mapGet?_mapSet]
  split <;> rfl

theorem mapGet?_isSome_iff {K V : Type} [DecidableEq K] (m : List (K × V)) (k : K) :
    (mapGet? m k).isSome = true ↔ k ∈ mapKeys m := by
  induction m with
  | nil => simp [mapGet?, mapKeys]
  | cons hd tl ih =>
    obtain ⟨a, b⟩ := hd
    by_cases h : a = k
    · simp [mapGet?, mapKeys, h]
    · have ih' := ih
      simp only [mapKeys] at ih'
      simp [mapGet?, mapKeys, h, ih', Ne.symm h]

theorem mapGet?_eq_none_iff {K V : Type} [DecidableEq K] (m : List (K × V)) (k : K) :
    mapGet? m k = none ↔ k ∉ mapKeys m := by
  rw [← mapGet?_isSome_iff]
  cases mapGet? m k <;> simp

theorem mapSet_of_not_mem {K V : Type} [DecidableEq K] (m : List (K × V)) (k : K) (v : V)
    (h : k ∉ mapKeys m) : mapSet m k v = m ++ [(k, v)] := by
  induction m with
  | nil => rfl
  | cons hd tl ih =>
    obtain ⟨a, b⟩ := hd
    simp only [mapKeys, List.map_cons, List.mem_cons, not_or] at h
    have hne : a ≠ k := fun e => h.1 e.symm
    simp [mapSet, hne, ih (by simpa [mapKeys] using h.2)]

theorem mem_mapKeys_mapSet {K V : Type} [DecidableEq K] (m : List (K × V)) (k k' : K) (v : V) :
    k' ∈ mapKeys (mapSet m k v) ↔ k' = k ∨ k' ∈ mapKeys m := by
  rw [← mapGet?_isSome_iff, ← mapGet?_isSome_iff, mapGet?_mapSet]
  by_cases h : k = k'
  · simp [h]
  · simp [h, Ne.symm h]

theorem nodupKeys_mapSet {K V : Type} [DecidableEq K] (m : List (K × V)) (k : K) (v : V)
    (h : NodupKeys m) : NodupKeys (mapSet m k v) := by
  induction m with
  | nil => simp [mapSet, NodupKeys, mapKeys]
  | cons hd tl ih =>
    obtain ⟨a, b⟩ := hd
    have h' : a ∉ mapKeys tl ∧ NodupKeys tl := by
      simpa [NodupKeys, mapKeys] using h
    by_cases e : a = k
    · subst e
      simpa [mapSet, NodupKeys, mapKeys] using h
    · have hmem : a ∉ mapKeys (mapSet tl k v) := by
        rw [mem_mapKeys_mapSet]
        exact fun c => c.elim e h'.1
      have := ih h'.2
      simp only [mapSet, e, if_false, NodupKeys, mapKeys, List.map_cons, List.nodup_cons]
      exact ⟨by simpa [mapKeys] using hmem, this⟩

theorem mapGet?_of_mem {K V : Type} [DecidableEq K] (m : List (K × V)) (h : NodupKeys m)
    (p : K × V) (hp : p ∈ m) : mapGet? m p.1 = some p.2 := by
  induction m with
  | nil => cases hp
  | cons hd tl ih =>
    obtain ⟨a, b⟩ := hd
    have h' : a ∉ mapKeys tl ∧ NodupKeys tl := by
      simpa [NodupKeys, mapKeys] using h
    rcases List.mem_cons.1 hp with e | e
    · subst e
      simp [mapGet?]
    · have hne : a ≠ p.1 := by
        intro c
        apply h'.1
        rw [c]
        exact List.mem_map_of_mem Prod.fst e
      simp [mapGet?, hne, ih h'.2 e]

theorem mem_of_mapGet? {K V : Type} [DecidableEq K] (m : List (K × V)) (k : K) (v : V)
    (h : mapGet? m k = some v) : (k, v) ∈ m := by
  induction m with
  | nil => simp [mapGet?] at h
  | cons hd tl ih =>
    obtain ⟨a, b⟩ := hd
    by_cases e : a = k
    · simp [mapGet?, e] at h
      simp [e, h]
    · simp [mapGet?, e] at h
      exact List.mem_cons_of_mem _ (ih h)

theorem mapGet?_perm {K V : Type} [DecidableEq K] {m₁ m₂ : List (K × V)} (hp : m₁.Perm m₂)
    (h : NodupKeys m₁) (k : K) : mapGet? m₁ k = mapGet? m₂ k := by
  have h₂ : NodupKeys m₂ := by
    unfold NodupKeys mapKeys at *
    exact (hp.map Prod.fst).nodup_iff.1 h
  cases e : mapGet? m₁ k with
  | none =>
    symm
    rw [mapGet?_eq_none_iff] at e ⊢
    intro c
    exact e ((hp.map Prod.fst).mem_iff.2 c)
  | some v =>
    have := mapGet?_of_mem m₂ h₂ (k, v) (hp.mem_iff.1 (mem_of_mapGet? m₁ k v e))
    exact this.symm

/-! ## Facts about the dedup filter -/

theorem filterStep_reported (lw : Int → Walker) (st : FilterState) (p : String × Walk)
    (k : String) :
    mapGet false (filterStep lw st p).reportedWalks k = true ↔
      mapGet false st.reportedWalks k = true ∨ k = p.1 := by
  unfold filterStep
  by_cases h : mapGet false st.reportedWalks p.1 = false
  · simp only [h, if_true]
    split <;>
    · simp only [mapGet_mapSet]
      by_cases e : p.1 = k
      · simp [e]
      · simp [e, Ne.symm e]
  · simp only [h, if_false]
    constructor
    · exact Or.inl
    · rintro (c | c)
      · exact c
      · subst c
        simpa using h

theorem filterStep_walksToReport (lw : Int → Walker) (st : FilterState) (p : String × Walk) :
    (filterStep lw st p).walksToReport =
      if mapGet false st.reportedWalks p.1 = false then mapSet st.walksToReport p.1 p.2
      else st.walksToReport := by
  by_cases h : mapGet false st.reportedWalks p.1 = false
  · by_cases h2 : (mapGet? st.walkers p.2.WalkerID).isSome = false <;>
      simp [filterStep, h, h2]
  · simp [filterStep, h]

theorem filterStep_reportedWalks (lw : Int → Walker) (st : FilterState) (p : String × Walk) :
    (filterStep lw st p).reportedWalks =
      if mapGet false st.reportedWalks p.1 = false then mapSet st.reportedWalks p.1 true
      else st.reportedWalks := by
  by_cases h : mapGet false st.reportedWalks p.1 = false
  · by_cases h2 : (mapGet? st.walkers p.2.WalkerID).isSome = false <;>
      simp [filterStep, h, h2]
  · simp [filterStep, h]

theorem foldl_filterStep_reported (lw : Int → Walker) (l : List (String × Walk))
    (st : FilterState) (k : String) :
    mapGet false (l.foldl (filterStep lw) st).reportedWalks k = true ↔
      mapGet false st.reportedWalks k = true ∨ k ∈ mapKeys l := by
  induction l generalizing st with
  | nil => simp [mapKeys]
  | cons p tl ih =>
    rw [List.foldl_cons, ih, filterStep_reported]
    simp only [mapKeys, List.map_cons, List.mem_cons]
    tauto

theorem foldl_filterStep_walksToReport (lw : Int → Walker) (l : List (String × Walk))
    (st : FilterState) (k : String) :
    mapGet? (l.foldl (filterStep lw) st).walksToReport k =
      if mapGet false st.reportedWalks k = false ∧ k ∈ mapKeys l then mapGet? l k
      else mapGet? st.walksToReport k := by
  induction l generalizing st with
  | nil => simp [mapKeys]
  | cons p tl ih =>
    obtain ⟨a, w⟩ := p
    rw [List.foldl_cons, ih, filterStep_walksToReport, filterStep_reportedWalks]
    simp only [mapKeys, List.map_cons, List.mem_cons, mapGet?]
    have hk : k ∈ List.map Prod.fst tl ↔ (mapGet? tl k).isSome = true := by
      rw [mapGet?_isSome_iff]; rfl
    by_cases h : mapGet false st.reportedWalks a = false
    · simp only [h, if_true, mapGet_mapSet, mapGet?_mapSet]
      by_cases e : a = k
      · subst e
        simp [h]
      · have e' : ¬ k = a := fun c => e c.symm
        simp only [e, e', if_false, false_or]
    · rw [if_neg h, if_neg h]
      by_cases e : a = k
      · subst e
        simp [h]
      · have e' : ¬ k = a := fun c => e c.symm
        simp only [e, e', if_false, false_or]

theorem foldl_filterStep_nodupKeys (lw : Int → Walker) (l : List (String × Walk))
    (st : FilterState) (h : NodupKeys st.walksToReport) :
    NodupKeys (l.foldl (filterStep lw) st).walksToReport := by
  induction l generalizing st with
  | nil => exact h
  | cons p tl ih =>
    rw [List.foldl_cons]
    apply ih
    rw [filterStep_walksToReport]
    split
    · exact nodupKeys_mapSet _ _ _ h
    · exact h

theorem foldl_filterStep_fixed (lw : Int → Walker) (l : List (String × Walk))
    (st : FilterState) (h : ∀ k ∈ mapKeys l, mapGet false st.reportedWalks k = true) :
    l.foldl (filterStep lw) st = st := by
  induction l with
  | nil => rfl
  | cons p tl ih =>
    have hp : mapGet false st.reportedWalks p.1 = true := h p.1 (by simp [mapKeys])
    have hstep : filterStep lw st p = st := by
      unfold filterStep
      simp [hp]
    rw [List.foldl_cons, hstep]
    exact ih (fun k hk => h k (by
      simp only [mapKeys, List.map_cons, List.mem_cons] at hk ⊢
      exact Or.inr hk))

theorem dedupFilter_get? (lw : Int → Walker) (allWalks : List (String × Walk))
    (reported : List (String × Bool)) (k : String) :
    mapGet? (dedupFilter lw allWalks reported).walksToReport k =
      if mapGet false reported k = false ∧ k ∈ mapKeys allWalks then mapGet? allWalks k
      else none := by
  unfold dedupFilter
  rw [foldl_filterStep_walksToReport]
  rfl

theorem dedupFilter_mem_keys (lw : Int → Walker) (allWalks : List (String × Walk))
    (reported : List (String × Bool)) (k : String) :
    k ∈ mapKeys (dedupFilter lw allWalks reported).walksToReport ↔
      k ∈ mapKeys allWalks ∧ ¬ mapGet false reported k = true := by
  rw [← mapGet?_isSome_iff, dedupFilter_get?]
  by_cases h : mapGet false reported k = false ∧ k ∈ mapKeys allWalks
  · rw [if_pos h, mapGet?_isSome_iff]
    simp [h.1, h.2]
  · rw [if_neg h]
    simp only [Option.isSome_none, Bool.false_eq_true, false_iff]
    intro c
    apply h
    refine ⟨?_, c.1⟩
    simpa using c.2

theorem dedupFilter_reported (lw : Int → Walker) (allWalks : List (String × Walk))
    (reported : List (String × Bool)) (k : String) :
    mapGet false (dedupFilter lw allWalks reported).reportedWalks k = true ↔
      mapGet false reported k = true ∨ k ∈ mapKeys allWalks := by
  unfold dedupFilter
  rw [foldl_filterStep_reported]
  rfl

theorem filterInv_init (lw : Int → Walker) (reported : List (String × Bool)) :
    FilterInv lw (filterInit reported) := by
  constructor <;> simp [filterInit, mapKeys]

theorem mapKeys_fetched (lw : Int → Walker) (ids : List Int) :
    mapKeys (ids.map (fun id => (id, lw id))) = ids := by
  simp [mapKeys, List.map_map, Function.comp_def]

theorem filterInv_step (lw : Int → Walker) (st : FilterState) (p : String × Walk)
    (inv : FilterInv lw st) : FilterInv lw (filterStep lw st p) := by
  by_cases h : mapGet false st.reportedWalks p.1 = false
  · have hnew : p.1 ∉ mapKeys st.walksToReport := by
      intro c
      have := inv.marked _ c
      rw [h] at this
      exact Bool.false_ne_true this
    have hw : mapSet st.walksToReport p.1 p.2 = st.walksToReport ++ [p] :=
      mapSet_of_not_mem _ _ _ hnew
    have hmarked : ∀ k ∈ mapKeys (st.walksToReport ++ [p]),
        mapGet false (mapSet st.reportedWalks p.1 true) k = true := by
      intro k hk
      rw [mapGet_mapSet]
      by_cases e : p.1 = k
      · simp [e]
      · simp only [e, if_false]
        apply inv.marked
        simp only [mapKeys, List.map_append, List.map_cons, List.map_nil, List.mem_append,
          List.mem_singleton] at hk
        rcases hk with hk | hk
        · exact hk
        · exact absurd hk.symm e
    by_cases h2 : (mapGet? st.walkers p.2.WalkerID).isSome = false
    · have hfresh : p.2.WalkerID ∉ st.lookups := by
        intro c
        have hk : p.2.WalkerID ∈ mapKeys st.walkers := by
          rw [inv.fetched, mapKeys_fetched]; exact c
        rw [← mapGet?_isSome_iff, h2] at hk
        exact Bool.false_ne_true hk
      have hset : mapSet st.walkers p.2.WalkerID (lw p.2.WalkerID)
          = st.walkers ++ [(p.2.WalkerID, lw p.2.WalkerID)] := by
        apply mapSet_of_not_mem
        rw [inv.fetched, mapKeys_fetched]; exact hfresh
      have hst : filterStep lw st p =
          { reportedWalks := mapSet st.reportedWalks p.1 true,
            walksToReport := st.walksToReport ++ [p],
            walkers := st.walkers ++ [(p.2.WalkerID, lw p.2.WalkerID)],
            lookups := st.lookups ++ [p.2.WalkerID] } := by
        simp [filterStep, h, h2, hw, hset]
      rw [hst]
      refine ⟨hmarked, ?_, ?_, ?_⟩
      · exact List.nodup_append.2 ⟨inv.once, List.nodup_singleton _, by
          intro a ha hb
          rw [List.mem_singleton] at hb
          exact hfresh (hb ▸ ha)⟩
      · simp [inv.fetched]
      · intro id
        simp only [List.mem_append, List.mem_singleton, inv.needed]
        constructor
        · rintro (⟨q, hq, e⟩ | e)
          · exact ⟨q, Or.inl hq, e⟩
          · exact ⟨p, Or.inr rfl, e.symm⟩
        · rintro ⟨q, hq | hq, e⟩
          · exact Or.inl ⟨q, hq, e⟩
          · subst hq
            exact Or.inr e.symm
    · have hst : filterStep lw st p =
          { reportedWalks := mapSet st.reportedWalks p.1 true,
            walksToReport := st.walksToReport ++ [p],
            walkers := st.walkers,
            lookups := st.lookups } := by
        simp [filterStep, h, h2, hw]
      have hold : p.2.WalkerID ∈ st.lookups := by
        have : p.2.WalkerID ∈ mapKeys st.walkers := by
          rw [← mapGet?_isSome_iff]
          cases hb : (mapGet? st.walkers p.2.WalkerID).isSome
          · exact absurd hb h2
          · rfl
        rw [inv.fetched, mapKeys_fetched] at this
        exact this
      rw [hst]
      refine ⟨hmarked, inv.once, inv.fetched, ?_⟩
      intro id
      simp only [List.mem_append, List.mem_singleton]
      constructor
      · intro hid
        obtain ⟨q, hq, e⟩ := (inv.needed id).1 hid
        exact ⟨q, Or.inl hq, e⟩
      · rintro ⟨q, hq | hq, e⟩
        · exact (inv.needed id).2 ⟨q, hq, e⟩
        · subst hq
          exact e ▸ hold
  · have hst : filterStep lw st p = st := by
      simp [filterStep, h]
    rw [hst]
    exact inv

theorem filterInv_foldl (lw : Int → Walker) (l : List (String × Walk)) (st : FilterState)
    (inv : FilterInv lw st) : FilterInv lw (l.foldl (filterStep lw) st) := by
  induction l generalizing st with
  | nil => exact inv
  | cons p tl ih => exact ih _ (filterInv_step lw st p inv)

theorem filterInv_dedupFilter (lw : Int → Walker) (allWalks : List (String × Walk))
    (reported : List (String × Bool)) : FilterInv lw (dedupFilter lw allWalks reported) :=
  filterInv_foldl lw allWalks _ (filterInv_init lw reported)

/-- C1. The dedup filter of `main`: whatever `allWalks` (key set `B`) and the loaded
`ReportedWalks` (IDs marked `true`: `A`) are, after the loop the keys of
`walksToReport` are exactly `B \ A`, each of them is bound to the `Walk` that
`allWalks` holds for it (and bound once), and the IDs marked `true` in
`ReportedWalks` are exactly `A ∪ B`, so no ID of `A` is removed. -/
theorem dedupFilter_pending_and_reported (lookupWalker : Int → Walker)
    (allWalks : List (String × Walk)) (reported : List (String × Bool)) :
    (∀ k, k ∈ mapKeys (dedupFilter lookupWalker allWalks reported).walksToReport ↔
        k ∈ mapKeys allWalks ∧ ¬ mapGet false reported k = true) ∧
    (∀ k, k ∈ mapKeys (dedupFilter lookupWalker allWalks reported).walksToReport →
        mapGet? (dedupFilter lookupWalker allWalks reported).walksToReport k
          = mapGet? allWalks k) ∧
    NodupKeys (dedupFilter lookupWalker allWalks reported).walksToReport ∧
    (∀ k, mapGet false (dedupFilter lookupWalker allWalks reported).reportedWalks k = true ↔
        mapGet false reported k = true ∨ k ∈ mapKeys allWalks) := by
  refine ⟨dedupFilter_mem_keys _ _ _, ?_, ?_, dedupFilter_reported _ _ _⟩
  · intro k hk
    rw [dedupFilter_get?]
    have := (dedupFilter_mem_keys _ _ _ k).1 hk
    rw [if_pos ⟨by simpa using this.2, this.1⟩]
  · unfold dedupFilter
    exact foldl_filterStep_nodupKeys _ _ _ (by simp [filterInit, NodupKeys, mapKeys])

/-- C2. Idempotence of the dedup filter. For two enumerations `allWalks`,
`allWalks'` of the same map of walks and any `ReportedWalks`: (i) two runs
started from the same `ReportedWalks` have the same pending key set; (ii) a
second run started from the `ReportedWalks` the first run produced has an
empty `walksToReport` and leaves `ReportedWalks` as it was. -/
theorem dedupFilter_idempotent (lookupWalker : Int → Walker)
    (allWalks allWalks' : List (String × Walk)) (reported : List (String × Bool))
    (hperm : allWalks.Perm allWalks') :
    (∀ k, k ∈ mapKeys (dedupFilter lookupWalker allWalks reported).walksToReport ↔
        k ∈ mapKeys (dedupFilter lookupWalker allWalks' reported).walksToReport) ∧
    (dedupFilter lookupWalker allWalks'
        (dedupFilter lookupWalker allWalks reported).reportedWalks).walksToReport = [] ∧
    (dedupFilter lookupWalker allWalks'
        (dedupFilter lookupWalker allWalks reported).reportedWalks).reportedWalks
      = (dedupFilter lookupWalker allWalks reported).reportedWalks := by
  have hkeys : ∀ k, k ∈ mapKeys allWalks ↔ k ∈ mapKeys allWalks' := fun k =>
    (hperm.map Prod.fst).mem_iff
  have hfix : dedupFilter lookupWalker allWalks'
      (dedupFilter lookupWalker allWalks reported).reportedWalks
      = filterInit (dedupFilter lookupWalker allWalks reported).reportedWalks := by
    unfold dedupFilter
    apply foldl_filterStep_fixed
    intro k hk
    have := (foldl_filterStep_reported lookupWalker allWalks (filterInit reported) k).2
      (Or.inr ((hkeys k).2 hk))
    exact this
  refine ⟨?_, ?_, ?_⟩
  · intro k
    rw [dedupFilter_mem_keys, dedupFilter_mem_keys, hkeys]
  · rw [hfix]; rfl
  · rw [hfix]; rfl

theorem dedupFilter_nodupKeys (lw : Int → Walker) (allWalks : List (String × Walk))
    (reported : List (String × Bool)) :
    NodupKeys (dedupFilter lw allWalks reported).walksToReport := by
  unfold dedupFilter
  exact foldl_filterStep_nodupKeys _ _ _ (by simp [filterInit, NodupKeys, mapKeys])

theorem dedupFilter_mem_walksToReport (lw : Int → Walker) (allWalks : List (String × Walk))
    (reported : List (String × Bool)) (hkeys : NodupKeys allWalks) (p : String × Walk) :
    p ∈ (dedupFilter lw allWalks reported).walksToReport ↔
      p ∈ allWalks ∧ ¬ mapGet false reported p.1 = true := by
  constructor
  · intro hp
    have hget := mapGet?_of_mem _ (dedupFilter_nodupKeys lw allWalks reported) p hp
    have hk : p.1 ∈ mapKeys (dedupFilter lw allWalks reported).walksToReport :=
      List.mem_map_of_mem Prod.fst hp
    have hcond := (dedupFilter_mem_keys lw allWalks reported p.1).1 hk
    rw [dedupFilter_get?, if_pos ⟨by simpa using hcond.2, hcond.1⟩] at hget
    exact ⟨mem_of_mapGet? allWalks p.1 p.2 hget, hcond.2⟩
  · rintro ⟨hp, hr⟩
    have hget := mapGet?_of_mem allWalks hkeys p hp
    have hk : p.1 ∈ mapKeys allWalks := List.mem_map_of_mem Prod.fst hp
    have : mapGet? (dedupFilter lw allWalks reported).walksToReport p.1 = some p.2 := by
      rw [dedupFilter_get?, if_pos ⟨by simpa using hr, hk⟩, hget]
    exact mem_of_mapGet? _ p.1 p.2 this

/-- C6. Walker profiles are fetched once per needed walker. For every map
`allWalks`, in whatever order the loop of `main` visits it, and every
`ReportedWalks`: the trace of `LookupWalkerInt64` calls holds exactly once each
`WalkerID` of a walk of `allWalks` that is not marked reported, and holds no
other `WalkerID` (so none that only already-reported walks refer to); the keys
of the resulting `walkers` map are exactly these `WalkerID`s, each bound once,
to the profile the lookup returned; and the walks counted here are exactly the
entries of `walksToReport`. -/
theorem lookupWalker_once_per_needed (lookupWalker : Int → Walker)
    (allWalks : List (String × Walk)) (reported : List (String × Bool))
    (hkeys : NodupKeys allWalks) :
    (∀ id, (∃ p ∈ allWalks, ¬ mapGet false reported p.1 = true ∧ p.2.WalkerID = id) →
        (dedupFilter lookupWalker allWalks reported).lookups.count id = 1) ∧
    (∀ id, ¬ (∃ p ∈ allWalks, ¬ mapGet false reported p.1 = true ∧ p.2.WalkerID = id) →
        (dedupFilter lookupWalker allWalks reported).lookups.count id = 0) ∧
    (∀ id, id ∈ mapKeys (dedupFilter lookupWalker allWalks reported).walkers ↔
        ∃ p ∈ allWalks, ¬ mapGet false reported p.1 = true ∧ p.2.WalkerID = id) ∧
    NodupKeys (dedupFilter lookupWalker allWalks reported).walkers ∧
    (∀ id, id ∈ mapKeys (dedupFilter lookupWalker allWalks reported).walkers →
        mapGet? (dedupFilter lookupWalker allWalks reported).walkers id
          = some (lookupWalker id)) ∧
    (∀ p, p ∈ (dedupFilter lookupWalker allWalks reported).walksToReport ↔
        p ∈ allWalks ∧ ¬ mapGet false reported p.1 = true) := by
  have inv := filterInv_dedupFilter lookupWalker allWalks reported
  have hmem := dedupFilter_mem_walksToReport lookupWalker allWalks reported hkeys
  have hneed : ∀ id, id ∈ (dedupFilter lookupWalker allWalks reported).lookups ↔
      ∃ p ∈ allWalks, ¬ mapGet false reported p.1 = true ∧ p.2.WalkerID = id := by
    intro id
    rw [inv.needed id]
    constructor
    · rintro ⟨p, hp, e⟩
      exact ⟨p, ((hmem p).1 hp).1, ((hmem p).1 hp).2, e⟩
    · rintro ⟨p, hp, hr, e⟩
      exact ⟨p, (hmem p).2 ⟨hp, hr⟩, e⟩
  have hk : mapKeys (dedupFilter lookupWalker allWalks reported).walkers
      = (dedupFilter lookupWalker allWalks reported).lookups := by
    rw [inv.fetched, mapKeys_fetched]
  have hnd : NodupKeys (dedupFilter lookupWalker allWalks reported).walkers := by
    unfold NodupKeys
    rw [hk]
    exact inv.once
  refine ⟨?_, ?_, ?_, hnd, ?_, hmem⟩
  · intro id hid
    exact List.count_eq_one_of_mem inv.once ((hneed id).2 hid)
  · intro id hid
    exact List.count_eq_zero_of_not_mem (fun c => hid ((hneed id).1 c))
  · intro id
    rw [hk]
    exact hneed id
  · intro id hid
    rw [hk] at hid
    have hmem' : (id, lookupWalker id) ∈ (dedupFilter lookupWalker allWalks reported).walkers := by
      rw [inv.fetched]
      exact List.mem_map.2 ⟨id, hid, rfl⟩
    exact mapGet?_of_mem _ hnd (id, lookupWalker id) hmem'

/-! ## Facts about `strconv` -/

theorem digitChar_toNat (d : Nat) (h : d < 10) : (digitChar d).toNat = 48 + d := by
  interval_cases d <;> rfl

theorem digitChar_not_sign (d : Nat) (h : d < 10) : digitChar d ≠ '+' ∧ digitChar d ≠ '-' := by
  interval_cases d <;> decide

theorem parseUintLoop_digit (d : Nat) (h : d < 10) (cs : List Char) (n : Nat)
    (hn : n * 10 + d < 2 ^ 64) :
    parseUintLoop (2 ^ intSize - 1) (digitChar d :: cs) n
      = parseUintLoop (2 ^ intSize - 1) cs (n * 10 + d) := by
  have h10 : n * 10 % 2 ^ 64 = n * 10 := Nat.mod_eq_of_lt (by omega)
  have h1 : (n * 10 + d) % 2 ^ 64 = n * 10 + d := Nat.mod_eq_of_lt hn
  have c1 : ¬ (48 + d < 48 ∨ 57 < 48 + d) := by omega
  have c2 : ¬ ((2 ^ 64 - 1) / 10 + 1 ≤ n) := by
    norm_num at hn ⊢
    omega
  have c3 : ¬ (n * 10 + d < n * 10 ∨ 2 ^ intSize - 1 < n * 10 + d) := by
    simp only [intSize]
    norm_num at hn ⊢
    omega
  rw [parseUintLoop]
  simp only [digitChar_toNat d h, Nat.add_sub_cancel_left, h10, h1]
  rw [if_neg c1, if_neg c2, if_neg c3]

theorem formatDigits_head (fuel n : Nat) (rest : List Char) :
    ∃ d, d < 10 ∧ ∃ tl, formatDigits (fuel + 1) n rest = digitChar d :: tl := by
  induction fuel generalizing n rest with
  | zero =>
    refine ⟨n % 10, Nat.mod_lt _ (by decide), rest, ?_⟩
    simp only [formatDigits]
    split <;> rfl
  | succ f ih =>
    rw [formatDigits]
    by_cases hz : n / 10 = 0
    · exact ⟨n % 10, Nat.mod_lt _ (by decide), rest, by simp [hz]⟩
    · simp only [hz, if_false]
      exact ih _ _

theorem parseUintLoop_formatDigits (fuel : Nat) :
    ∀ (n : Nat) (rest : List Char), n < 10 ^ fuel →
      ∃ k, ∀ a, a * 10 ^ k + n < 2 ^ 64 →
        parseUintLoop (2 ^ intSize - 1) (formatDigits fuel n rest) a
          = parseUintLoop (2 ^ intSize - 1) rest (a * 10 ^ k + n) := by
  induction fuel with
  | zero =>
    intro n rest hn
    refine ⟨0, fun a _ => ?_⟩
    have : n = 0 := by simpa using hn
    simp [formatDigits, this]
  | succ f ih =>
    intro n rest hn
    have hd : n % 10 < 10 := Nat.mod_lt _ (by decide)
    rw [formatDigits]
    by_cases hz : n / 10 = 0
    · refine ⟨1, fun a ha => ?_⟩
      have hn' : n % 10 = n := by omega
      simp only [hz, if_true]
      rw [parseUintLoop_digit _ hd _ _ (by omega)]
      congr 1
      omega
    · have hq : n / 10 < 10 ^ f := by
        rw [pow_succ] at hn
        omega
      obtain ⟨k, hk⟩ := ih (n / 10) (digitChar (n % 10) :: rest) hq
      refine ⟨k + 1, fun a ha => ?_⟩
      have e : a * 10 ^ (k + 1) = a * 10 ^ k * 10 := by rw [pow_succ, Nat.mul_assoc]
      rw [e] at ha ⊢
      simp only [hz, if_false]
      rw [hk a (by omega), parseUintLoop_digit _ hd _ _ (by omega)]
      congr 1
      omega

theorem parseUint_formatDigits (n : Nat) (hn : n < 2 ^ 64) :
    parseUint (formatDigits 20 n []) = (n, none) := by
  obtain ⟨d, _, tl, hhead⟩ := formatDigits_head 19 n []
  obtain ⟨k, hk⟩ := parseUintLoop_formatDigits 20 n [] (by
    refine lt_trans hn ?_
    norm_num)
  have h0 := hk 0 (by simpa using hn)
  unfold parseUint
  rw [if_neg (by rw [hhead]; exact List.cons_ne_nil _ _), h0]
  simp [parseUintLoop]

theorem parseInt_formatDigits (n : Nat) (hn : n < 2 ^ 63) :
    parseInt (formatDigits 20 n []) = ((n : Int), none) := by
  obtain ⟨d, hd, tl, hhead⟩ := formatDigits_head 19 n []
  have hp := parseUint_formatDigits n (by omega)
  rw [hhead] at hp
  have hs := digitChar_not_sign d hd
  have c : ¬ ((2 : Nat) ^ (intSize - 1) ≤ n) := by
    simp only [intSize]
    omega
  rw [hhead]
  simp only [parseInt, hs.1, hs.2, or_self, if_false, hp, decide_False, true_and, c,
    Bool.false_eq_true, false_and, toInt64]
  have hm : n % 2 ^ 64 = n := Nat.mod_eq_of_lt (by omega)
  rw [hm, if_pos hn]

theorem parseInt_neg_formatDigits (n : Nat) (hpos : 0 < n) (hn : n ≤ 2 ^ 63) :
    parseInt ('-' :: formatDigits 20 n []) = (-(n : Int), none) := by
  have hp := parseUint_formatDigits n (by omega)
  have c : ¬ ((2 : Nat) ^ (intSize - 1) < n) := by
    simp only [intSize]
    omega
  simp only [parseInt, or_true, if_true, hp, decide_True, Bool.true_eq_false, false_and,
    true_and, c, if_false, toInt64]
  have hm : n % 2 ^ 64 = n := Nat.mod_eq_of_lt (by omega)
  rw [hm]
  by_cases e : n < 2 ^ 63
  · rw [if_pos e]
    have : ¬ ((n : Int) = -(2 ^ 63)) := by omega
    simp [negInt64, this]
  · rw [if_neg e]
    have e' : n = 2 ^ 63 := by omega
    subst e'
    simp [negInt64]

/-- Round trip of `strconv`: `Atoi` reads back what `Itoa` wrote, for every
value of type `int`. -/
theorem Atoi_Itoa (i : Int) (hlo : minInt ≤ i) (hhi : i ≤ maxInt) : Atoi (Itoa i) = (i, none) := by
  simp only [minInt, maxInt, intSize] at hlo hhi
  norm_num at hlo hhi
  unfold Atoi Itoa
  by_cases hneg : i < 0
  · rw [if_pos hneg]
    show parseInt ('-' :: formatDigits 20 i.natAbs []) = (i, none)
    rw [parseInt_neg_formatDigits i.natAbs (by omega) (by omega)]
    congr 1
    omega
  · rw [if_neg hneg]
    show parseInt (formatDigits 20 i.natAbs []) = (i, none)
    rw [parseInt_formatDigits i.natAbs (by omega)]
    congr 1
    omega

theorem parseInt_shape (l : List Char) :
    parseInt l = (0, some NumError.syntaxErr) ∨
      (parseInt l = (maxInt, some NumError.rangeErr) ∧ l.head? ≠ some '-') ∨
      (parseInt l = (minInt, some NumError.rangeErr) ∧ l.head? = some '-') ∨
      (parseInt l).2 = none := by
  cases l with
  | nil => left; rfl
  | cons c cs =>
    simp only [parseInt, List.head?_cons]
    generalize parseUint (if c = '+' ∨ c = '-' then cs else c :: cs) = r
    obtain ⟨un, e⟩ := r
    have hmax : (((2 ^ (intSize - 1) - 1 : Nat) : Int)) = maxInt := by
      simp [maxInt, intSize]
    have hmin : (-((2 ^ (intSize - 1) : Nat) : Int)) = minInt := by
      simp [minInt, intSize]
    rcases e with _ | _ | _
    · simp only []
      split_ifs with h1 h2
      · right; left
        exact ⟨by rw [hmax], by simpa using h1.1⟩
      · right; right; left
        exact ⟨by rw [hmin], by simpa using h2.1⟩
      all_goals (right; right; right; rfl)
    · left; rfl
    · simp only []
      split_ifs with h1 h2
      · right; left
        exact ⟨by rw [hmax], by simpa using h1.1⟩
      · right; right; left
        exact ⟨by rw [hmin], by simpa using h2.1⟩
      all_goals (right; right; right; rfl)

theorem Atoi_syntaxErr (s : String) (h : (Atoi s).2 = some NumError.syntaxErr) :
    (Atoi s).1 = 0 := by
  unfold Atoi at *
  rcases parseInt_shape s.data with e | ⟨e, _⟩ | ⟨e, _⟩ | e <;> rw [e] at h <;> simp at h
  rw [e]

theorem Atoi_rangeErr (s : String) (h : (Atoi s).2 = some NumError.rangeErr) :
    (Atoi s).1 = if s.data.head? = some '-' then minInt else maxInt := by
  unfold Atoi at *
  rcases parseInt_shape s.data with e | ⟨e, hs⟩ | ⟨e, hs⟩ | e <;> rw [e] at h <;> simp at h
  · rw [e, if_neg hs]
  · rw [e, if_pos hs]

/-! ## Facts about the renderer -/

theorem foldl_append_eq (α : Type) (f : α → String) (l : List α) (init : String) :
    l.foldl (fun out x => out ++ f x) init = init ++ String.join (l.map f) := by
  induction l generalizing init with
  | nil => simp [String.join]
  | cons a tl ih =>
    rw [List.foldl_cons, ih, List.map_cons]
    have hj : String.join (f a :: tl.map f) = f a ++ String.join (tl.map f) := by
      unfold String.join
      rw [List.foldl_cons]
      have key : ∀ (l : List String) (x : String),
          l.foldl (fun r s => r ++ s) x = x ++ l.foldl (fun r s => r ++ s) "" := by
        intro l
        induction l with
        | nil => intro x; simp
        | cons b l ihl =>
          intro x
          rw [List.foldl_cons, ihl (x ++ b), List.foldl_cons, ihl ("" ++ b)]
          simp [String.append_assoc]
      rw [key]
      simp
    rw [hj, String.append_assoc]

theorem walkIds_eq_map (walks : List (String × Walk)) :
    walkIds walks = walks.map (fun p => (Atoi p.1).1) := by
  unfold walkIds
  have key : ∀ (l : List (String × Walk)) (init : List Int),
      l.foldl (fun ids p => ids ++ [(Atoi p.1).1]) init
        = init ++ l.map (fun p => (Atoi p.1).1) := by
    intro l
    induction l with
    | nil => intro init; simp
    | cons a tl ih => intro init; rw [List.foldl_cons, ih]; simp
  rw [key]
  simp

theorem produceReport_eq (fmt : FloatFmt) (walks : List (String × Walk))
    (walkers : List (Int × Walker)) (h : walks ≠ []) :
    produceReport fmt walks walkers =
      reportHeader
        ++ String.join ((sortReverse (walkIds walks)).map (reportSection fmt walks walkers))
        ++ reportFooter := by
  have hl : ¬ walks.length = 0 := by
    intro c
    exact h (List.length_eq_zero.1 c)
  unfold produceReport
  rw [if_neg hl]
  simp only
  rw [foldl_append_eq]

theorem sortReverse_perm (ids : List Int) : (sortReverse ids).Perm ids :=
  List.perm_insertionSort _ ids

theorem sortReverse_sorted (ids : List Int) : (sortReverse ids).Pairwise (fun a b => b ≤ a) :=
  List.sorted_insertionSort _ ids

theorem sortReverse_eq_of_perm {l₁ l₂ : List Int} (h : l₁.Perm l₂) :
    sortReverse l₁ = sortReverse l₂ := by
  haveI : IsAntisymm Int (fun a b => b ≤ a) := ⟨fun _ _ h₁ h₂ => le_antisymm h₂ h₁⟩
  exact List.eq_of_perm_of_sorted
    (((sortReverse_perm l₁).trans h).trans (sortReverse_perm l₂).symm)
    (List.sorted_insertionSort _ l₁) (List.sorted_insertionSort _ l₂)

theorem nodupKeys_perm {K V : Type} {m₁ m₂ : List (K × V)} (hp : m₁.Perm m₂)
    (h : NodupKeys m₁) : NodupKeys m₂ := by
  unfold NodupKeys mapKeys at *
  exact (hp.map Prod.fst).nodup_iff.1 h

theorem canonical_Itoa_Atoi {key : String} (h : Canonical key) :
    (Atoi key).2 = none ∧ Itoa (Atoi key).1 = key ∧ minInt ≤ (Atoi key).1
      ∧ (Atoi key).1 ≤ maxInt := by
  obtain ⟨n, hlo, hhi, rfl⟩ := h
  rw [Atoi_Itoa n hlo hhi]
  exact ⟨rfl, rfl, hlo, hhi⟩

theorem chargeRows_eq (fmt : FloatFmt) (charges : List Charge) :
    chargeRows fmt charges =
      (charges.map (fun c => c.Description), charges.map (fun c => fmt.f2 c.Amount)) := by
  unfold chargeRows
  have key : ∀ (l : List Charge) (init : List String × List String),
      l.foldl (fun acc charge =>
          (acc.1 ++ [charge.Description], acc.2 ++ [fmt.f2 charge.Amount])) init
        = (init.1 ++ l.map (fun c => c.Description),
            init.2 ++ l.map (fun c => fmt.f2 c.Amount)) := by
    intro l
    induction l with
    | nil => intro init; simp
    | cons a tl ih => intro init; rw [List.foldl_cons, ih]; simp
  rw [key]
  simp

theorem printTable_eq (data : List (List String)) :
    printTable data = "<table>\n" ++ String.join (data.map rowText) ++ "</table>" := by
  unfold printTable
  simp only
  have hf : (fun (ans : String) (row : List String) =>
      List.foldl (fun ans datum => ans ++ ("<td>" ++ datum ++ "</td>")) (ans ++ "<tr>\n") row
        ++ "\n</tr>\n") = (fun ans row => ans ++ rowText row) := by
    funext ans row
    rw [foldl_append_eq String (fun datum => "<td>" ++ datum ++ "</td>") row]
    simp only [rowText, String.append_assoc]
    rfl
  rw [hf, foldl_append_eq]

/-- C3. With an empty pending mapping `produceReport` prints nothing at all
(the empty text, so no header, style line or footer), and with a non-empty one
it prints a non-empty text: the output is empty exactly when the mapping is. -/
theorem produceReport_empty_iff (fmt : FloatFmt) (walks : List (String × Walk))
    (walkers : List (Int × Walker)) :
    produceReport fmt walks walkers = "" ↔ walks = [] := by
  constructor
  · intro h
    by_contra hne
    rw [produceReport_eq fmt walks walkers hne] at h
    have hlen := congrArg String.length h
    rw [String.length_append] at hlen
    have hf : reportFooter.length = 15 := by decide
    rw [hf] at hlen
    simp at hlen
  · intro h
    subst h
    rfl

/-- C7. The text `produceReport` prints does not depend on the order in which
the pending mapping (or the walkers map) is enumerated: two enumerations of the
same maps give the same text, whatever strings the keys are. -/
theorem produceReport_order_independent (fmt : FloatFmt)
    (walks walks' : List (String × Walk)) (walkers walkers' : List (Int × Walker))
    (hwalks : walks.Perm walks') (hkeys : NodupKeys walks)
    (hwalkers : walkers.Perm walkers') (hids : NodupKeys walkers) :
    produceReport fmt walks walkers = produceReport fmt walks' walkers' := by
  by_cases hne : walks = []
  · subst hne
    rw [List.nil_perm.1 hwalks]
    simp [produceReport]
  · have hne' : walks' ≠ [] := fun c => hne (by subst c; exact List.perm_nil.1 hwalks)
    rw [produceReport_eq fmt walks walkers hne, produceReport_eq fmt walks' walkers' hne']
    have hsort : sortReverse (walkIds walks) = sortReverse (walkIds walks') := by
      apply sortReverse_eq_of_perm
      rw [walkIds_eq_map, walkIds_eq_map]
      exact hwalks.map _
    have hsec : reportSection fmt walks walkers = reportSection fmt walks' walkers' := by
      funext key
      unfold reportSection mapGet
      simp only [mapGet?_perm hwalks hkeys, mapGet?_perm hwalkers hids]
    rw [hsort, hsec]

/-- C4. When every key of the (non-empty) pending mapping is the canonical
decimal rendering of an `int`, `produceReport` prints, between header and
footer, one section per pending walk, each rendered from that walk's own
record, in strictly descending numeric order of the keys. -/
theorem produceReport_descending (fmt : FloatFmt) (walks : List (String × Walk))
    (walkers : List (Int × Walker)) (hne : walks ≠ []) (hkeys : NodupKeys walks)
    (hcanon : ∀ p ∈ walks, Canonical p.1) :
    ∃ ordered : List (String × Walk),
      ordered.Perm walks ∧
      ordered.Pairwise (fun p q => (Atoi q.1).1 < (Atoi p.1).1) ∧
      produceReport fmt walks walkers =
        reportHeader
          ++ String.join (ordered.map (fun p =>
              produceWalkReport fmt p.2 (mapGet zeroWalker walkers p.2.WalkerID) ++ "<hr>\n"))
          ++ reportFooter := by
  let g : Int → String × Walk := fun n => (Itoa n, mapGet zeroWalk walks (Itoa n))
  have hg : ∀ p ∈ walks, g (Atoi p.1).1 = p := by
    intro p hp
    have hc := canonical_Itoa_Atoi (hcanon p hp)
    show (Itoa (Atoi p.1).1, mapGet zeroWalk walks (Itoa (Atoi p.1).1)) = p
    rw [hc.2.1]
    unfold mapGet
    rw [mapGet?_of_mem walks hkeys p hp]
    rfl
  have hperm : (sortReverse (walkIds walks)).Perm (walks.map (fun p => (Atoi p.1).1)) := by
    rw [← walkIds_eq_map]
    exact sortReverse_perm _
  have hmem : ∀ a ∈ sortReverse (walkIds walks), ∃ p ∈ walks, (Atoi p.1).1 = a := by
    intro a ha
    obtain ⟨p, hp, e⟩ := List.mem_map.1 (hperm.mem_iff.1 ha)
    exact ⟨p, hp, e⟩
  have hnd : (sortReverse (walkIds walks)).Nodup := by
    refine hperm.nodup_iff.2 ?_
    refine List.Nodup.map_on ?_ (List.Nodup.of_map Prod.fst hkeys)
    intro p hp q hq e
    rw [← hg p hp, ← hg q hq, e]
  refine ⟨(sortReverse (walkIds walks)).map g, ?_, ?_, ?_⟩
  · refine (hperm.map g).trans ?_
    rw [List.map_map]
    have : List.map (g ∘ fun p => (Atoi p.1).1) walks = List.map id walks :=
      List.map_congr_left (fun p hp => hg p hp)
    rw [this, List.map_id]
  · rw [List.pairwise_map]
    have hs := (sortReverse_sorted (walkIds walks)).and hnd
    refine hs.imp_of_mem ?_
    intro a b ha hb hab
    obtain ⟨p, hp, ea⟩ := hmem a ha
    obtain ⟨q, hq, eb⟩ := hmem b hb
    have e1 : (g a).1 = p.1 := by rw [← ea, hg p hp]
    have e2 : (g b).1 = q.1 := by rw [← eb, hg q hq]
    rw [e1, e2, ea, eb]
    exact lt_of_le_of_ne hab.1 (fun c => hab.2 c.symm)
  · rw [produceReport_eq fmt walks walkers hne, List.map_map]
    have hsec : reportSection fmt walks walkers =
        (fun p : String × Walk =>
          produceWalkReport fmt p.2 (mapGet zeroWalker walkers p.2.WalkerID) ++ "<hr>\n") ∘ g := by
      funext a
      simp only [reportSection, Function.comp_apply, g]
    rw [hsec]

/-- C10, syntax errors. When `strconv.Atoi` reports a syntax error for the key of a
pending walk, the sort key `produceReport` uses for it is `0`, and in the
sorted keys every positive key stands before it: the sorted keys split around
that `0` into keys that are at least `0` before it and keys that are at
most `0` after it. When `strconv.Atoi` reports a range error instead, the
value it returns, and so the sort key, is the smallest `int` for a string that
starts with `-` and the largest `int` for every other string. -/
theorem syntaxErr_sort_key (walks : List (String × Walk)) (p : String × Walk)
    (hp : p ∈ walks) (herr : (Atoi p.1).2 = some NumError.syntaxErr) :
    (Atoi p.1).1 = 0 ∧
    (∃ before after, sortReverse (walkIds walks) = before ++ 0 :: after ∧
      (∀ x ∈ before, 0 ≤ x) ∧ (∀ x ∈ after, x ≤ 0)) ∧
    (∀ s : String, (Atoi s).2 = some NumError.rangeErr →
      (Atoi s).1 = if s.data.head? = some '-' then minInt else maxInt) := by
  have h0 := Atoi_syntaxErr p.1 herr
  refine ⟨h0, ?_, Atoi_rangeErr⟩
  have hin : (0 : Int) ∈ sortReverse (walkIds walks) := by
    rw [(sortReverse_perm _).mem_iff, walkIds_eq_map, ← h0]
    exact List.mem_map.2 ⟨p, hp, rfl⟩
  obtain ⟨before, after, e⟩ := List.append_of_mem hin
  refine ⟨before, after, e, ?_, ?_⟩
  · intro x hx
    have hs := sortReverse_sorted (walkIds walks)
    rw [e, List.pairwise_append] at hs
    exact hs.2.2 x hx 0 (List.mem_cons_self _ _)
  · intro x hx
    have hs := sortReverse_sorted (walkIds walks)
    rw [e, List.pairwise_append, List.pairwise_cons] at hs
    exact hs.2.1.1 x hx

/-- C8. Charges row of `produceWalkReport`: what the function prints is the
table of the rows `tableContents`, one `<tr>` per row and one `<td>` per cell,
followed by a newline; these are always 8 rows, and the sixth is one cell
holding the nested table `printTable [descriptions, amounts]`, a table of
exactly two rows whose cells are the charges' descriptions and the charges'
amounts under `%.2f`, in invoice order, one cell per charge in each row; with
no charges that nested table is `printTable [[], []]`, the text of two rows
without cells, and the row is still there among the 8. -/
theorem charges_row (fmt : FloatFmt) (walk : Walk) (walker : Walker) :
    produceWalkReport fmt walk walker
      = printTable (tableContents fmt walk walker) ++ "\n" ∧
    produceWalkReport fmt walk walker
      = "<table>\n" ++ String.join ((tableContents fmt walk walker).map rowText)
          ++ "</table>" ++ "\n" ∧
    (∃ before after : List (List String), before.length = 5 ∧ after.length = 2 ∧
      produceWalkReport fmt walk walker
        = "<table>\n"
            ++ String.join ((before
                ++ [printTable [walk.Charges.map (fun c => c.Description),
                                walk.Charges.map (fun c => fmt.f2 c.Amount)]] :: after).map rowText)
            ++ "</table>" ++ "\n") ∧
    (tableContents fmt walk walker).length = 8 ∧
    (tableContents fmt walk walker)[5]? =
      some [printTable [walk.Charges.map (fun c => c.Description),
                        walk.Charges.map (fun c => fmt.f2 c.Amount)]] ∧
    printTable [walk.Charges.map (fun c => c.Description),
                walk.Charges.map (fun c => fmt.f2 c.Amount)]
      = "<table>\n"
          ++ String.join [rowText (walk.Charges.map (fun c => c.Description)),
                          rowText (walk.Charges.map (fun c => fmt.f2 c.Amount))]
          ++ "</table>" ∧
    (walk.Charges.map (fun c => c.Description)).length = walk.Charges.length ∧
    (walk.Charges.map (fun c => fmt.f2 c.Amount)).length = walk.Charges.length ∧
    printTable [[], []] = "<table>\n<tr>\n\n</tr>\n<tr>\n\n</tr>\n</table>" ∧
    (tableContents fmt { walk with Charges := [] } walker).length = 8 ∧
    (tableContents fmt { walk with Charges := [] } walker)[5]? =
      some ["<table>\n<tr>\n\n</tr>\n<tr>\n\n</tr>\n</table>"] ∧
    (∃ before after : List (List String), before.length = 5 ∧ after.length = 2 ∧
      produceWalkReport fmt { walk with Charges := [] } walker
        = "<table>\n"
            ++ String.join ((before
                ++ ["<table>\n<tr>\n\n</tr>\n<tr>\n\n</tr>\n</table>"] :: after).map rowText)
            ++ "</table>" ++ "\n") := by
  have hrows : ∀ w : Walk, (tableContents fmt w walker).length = 8 ∧
      (tableContents fmt w walker)[5]? =
        some [printTable [w.Charges.map (fun c => c.Description),
                          w.Charges.map (fun c => fmt.f2 c.Amount)]] := by
    intro w
    simp only [tableContents, chargeRows_eq]
    exact ⟨rfl, rfl⟩
  have hsplit : ∀ w : Walk, ∃ before after : List (List String),
      before.length = 5 ∧ after.length = 2 ∧
      tableContents fmt w walker
        = before ++ [printTable [w.Charges.map (fun c => c.Description),
                                 w.Charges.map (fun c => fmt.f2 c.Amount)]] :: after := by
    intro w
    refine ⟨(tableContents fmt w walker).take 5, (tableContents fmt w walker).drop 6, ?_, ?_, ?_⟩
    · simp only [tableContents, chargeRows_eq]; rfl
    · simp only [tableContents, chargeRows_eq]; rfl
    · simp only [tableContents, chargeRows_eq]; rfl
  have hout : ∀ w : Walk, produceWalkReport fmt w walker
      = "<table>\n" ++ String.join ((tableContents fmt w walker).map rowText)
          ++ "</table>" ++ "\n" := by
    intro w
    unfold produceWalkReport
    rw [printTable_eq]
  have hempty : printTable [[], []] = "<table>\n<tr>\n\n</tr>\n<tr>\n\n</tr>\n</table>" := by
    decide
  refine ⟨rfl, hout walk, ?_, (hrows walk).1, (hrows walk).2, ?_, by simp, by simp, hempty,
    (hrows _).1, ?_, ?_⟩
  · obtain ⟨before, after, h1, h2, h3⟩ := hsplit walk
    exact ⟨before, after, h1, h2, by rw [hout walk, h3]⟩
  · rw [printTable_eq]
    rfl
  · rw [(hrows _).2]
    simp only [List.map_nil]
    rw [hempty]
  · obtain ⟨before, after, h1, h2, h3⟩ := hsplit { walk with Charges := [] }
    refine ⟨before, after, h1, h2, ?_⟩
    rw [hout, h3]
    simp only [List.map_nil]
    rw [hempty]

theorem reportSection_missing_walker (fmt : FloatFmt) (walks : List (String × Walk))
    (walkers : List (Int × Walker)) (key : Int)
    (h : (mapGet zeroWalk walks (Itoa key)).WalkerID ∉ mapKeys walkers) :
    reportSection fmt walks walkers key =
      produceWalkReport fmt (mapGet zeroWalk walks (Itoa key)) zeroWalker ++ "<hr>\n" := by
  have hzero : ∀ id : Int, id ∉ mapKeys walkers → mapGet zeroWalker walkers id = zeroWalker := by
    intro id hid
    unfold mapGet
    rw [(mapGet?_eq_none_iff walkers id).2 hid]
    rfl
  simp only [reportSection, hzero _ h]

set_option maxRecDepth 100000 in
/-- C9, the code at a non-canonical key. The pending mapping holds one walk,
under the key `"007"`, whose `WalkerID` 6 has no entry in `walkers`; `walkers`
holds a profile for `WalkerID` 0. `produceReport` prints one section, rendered
from the zero-valued `Walk` and the profile of walker 0, and this is not the
section of the pending walk rendered with the zero-valued `Walker`. -/
theorem missing_walker_noncanonical_key :
    (6 : Int) ∉ mapKeys [((0 : Int), sampleProfile)] ∧
    produceReport sampleFmt [("007", sampleWalk "double-o-seven" 6)] [(0, sampleProfile)]
      = reportHeader
          ++ (produceWalkReport sampleFmt zeroWalk sampleProfile ++ "<hr>\n")
          ++ reportFooter ∧
    produceReport sampleFmt [("007", sampleWalk "double-o-seven" 6)] [(0, sampleProfile)]
      ≠ reportHeader
          ++ (produceWalkReport sampleFmt (sampleWalk "double-o-seven" 6) zeroWalker ++ "<hr>\n")
          ++ reportFooter := by
  decide

/-- C5, the code at non-canonical keys. For the pending mapping with the single
key `"007"` the one section `produceReport` prints is rendered from the
zero-valued `Walk` (the record looked up under `Itoa 7 = "7"`, which is absent)
and from `walkers[0]`, whatever record is stored under `"007"`; and for the
pending mapping with the keys `"7"` and `"007"` both sections are rendered
from the record stored under `"7"`. -/
theorem produceReport_noncanonical_key (fmt : FloatFmt) (walk other : Walk)
    (walkers : List (Int × Walker)) :
    produceReport fmt [("007", walk)] walkers =
      reportHeader
        ++ String.join [produceWalkReport fmt zeroWalk (mapGet zeroWalker walkers 0) ++ "<hr>\n"]
        ++ reportFooter ∧
    produceReport fmt [("7", other), ("007", walk)] walkers =
      reportHeader
        ++ String.join
            [produceWalkReport fmt other (mapGet zeroWalker walkers other.WalkerID) ++ "<hr>\n",
             produceWalkReport fmt other (mapGet zeroWalker walkers other.WalkerID) ++ "<hr>\n"]
        ++ reportFooter := by
  have hid : (Atoi "007").1 = 7 := by decide
  have hid' : (Atoi "7").1 = 7 := by decide
  have hkey : Itoa 7 = "7" := by decide
  have hne : ¬ ("007" = "7") := by decide
  have hsort : sortReverse [(7 : Int)] = [7] := rfl
  have hsort' : sortReverse [(7 : Int), 7] = [7, 7] := by decide
  constructor
  · rw [produceReport_eq fmt _ walkers (List.cons_ne_nil _ _), walkIds_eq_map]
    simp only [List.map_cons, List.map_nil, hid, hsort, reportSection, hkey, mapGet, mapGet?,
      hne, if_false, Option.getD_none]
    rfl
  · rw [produceReport_eq fmt _ walkers (List.cons_ne_nil _ _), walkIds_eq_map]
    simp only [List.map_cons, List.map_nil, hid, hid', hsort', reportSection, hkey, mapGet,
      mapGet?, if_true, Option.getD_some]

/-! ## Instances at concrete inputs -/

/-- C2 at a concrete input: three walks enumerated in two orders, walk `"99"`
already reported. -/
theorem dedupFilter_idempotent_witness :
    sampleAll.Perm sampleAll.reverse ∧
    (∀ k, k ∈ mapKeys (dedupFilter sampleLookup sampleAll sampleReported).walksToReport ↔
        k ∈ mapKeys (dedupFilter sampleLookup sampleAll.reverse sampleReported).walksToReport) ∧
    (dedupFilter sampleLookup sampleAll.reverse
        (dedupFilter sampleLookup sampleAll sampleReported).reportedWalks).walksToReport = [] ∧
    (dedupFilter sampleLookup sampleAll.reverse
        (dedupFilter sampleLookup sampleAll sampleReported).reportedWalks).reportedWalks
      = (dedupFilter sampleLookup sampleAll sampleReported).reportedWalks :=
  ⟨(List.reverse_perm sampleAll).symm,
    dedupFilter_idempotent sampleLookup sampleAll sampleAll.reverse sampleReported
      (List.reverse_perm sampleAll).symm⟩

/-- C6 at a concrete input: walks `"99"` and `"20"` of walker 5 are pending,
walk `"100"` of walker 6 is already reported; walker 5 is looked up once,
walker 6 never. -/
theorem lookupWalker_once_per_needed_witness :
    NodupKeys sampleAll ∧
    (dedupFilter sampleLookup sampleAll [("100", true)]).lookups.count 5 = 1 ∧
    (dedupFilter sampleLookup sampleAll [("100", true)]).lookups.count 6 = 0 :=
  ⟨by decide,
    (lookupWalker_once_per_needed sampleLookup sampleAll [("100", true)] (by decide)).1 5
      (by decide),
    (lookupWalker_once_per_needed sampleLookup sampleAll [("100", true)] (by decide)).2.1 6
      (by decide)⟩

/-- C4 at a concrete input: the walks `"99"`, `"100"`, `"20"`; the sorted keys
are `100, 99, 20`. -/
theorem produceReport_descending_witness :
    sampleAll ≠ [] ∧ NodupKeys sampleAll ∧ (∀ p ∈ sampleAll, Canonical p.1) ∧
    sortReverse (walkIds sampleAll) = [100, 99, 20] ∧
    ∃ ordered : List (String × Walk),
      ordered.Perm sampleAll ∧
      ordered.Pairwise (fun p q => (Atoi q.1).1 < (Atoi p.1).1) ∧
      produceReport sampleFmt sampleAll [] =
        reportHeader
          ++ String.join (ordered.map (fun p =>
              produceWalkReport sampleFmt p.2 (mapGet zeroWalker [] p.2.WalkerID) ++ "<hr>\n"))
          ++ reportFooter := by
  have h1 : sampleAll ≠ [] := by decide
  have h2 : NodupKeys sampleAll := by decide
  have h3 : ∀ p ∈ sampleAll, Canonical p.1 := by
    intro p hp
    simp only [sampleAll, List.mem_cons, List.mem_singleton, List.not_mem_nil, or_false] at hp
    rcases hp with rfl | rfl | rfl
    · exact ⟨99, by decide, by decide, by decide⟩
    · exact ⟨100, by decide, by decide, by decide⟩
    · exact ⟨20, by decide, by decide, by decide⟩
  exact ⟨h1, h2, h3, by decide, produceReport_descending sampleFmt sampleAll [] h1 h2 h3⟩

/-- C7 at a concrete input: keys `"7"`, `"007"`, `"abc"` enumerated in two orders. -/
theorem produceReport_order_independent_witness :
    sampleOdd.Perm sampleOdd.reverse ∧ NodupKeys sampleOdd ∧
    produceReport sampleFmt sampleOdd [(5, sampleLookup 5)]
      = produceReport sampleFmt sampleOdd.reverse [(5, sampleLookup 5)] :=
  ⟨(List.reverse_perm sampleOdd).symm, by decide,
    produceReport_order_independent sampleFmt sampleOdd sampleOdd.reverse
      [(5, sampleLookup 5)] [(5, sampleLookup 5)] (List.reverse_perm sampleOdd).symm
      (by decide) (List.Perm.refl _) (by decide)⟩

/-- C10 at a concrete input: the key `"abc"` among the keys `"7"`,
`"007"`, `"abc"` has the sort key `0`; the digit strings one past the largest
and one before the smallest `int` have the largest and the smallest `int` as
sort keys. -/
theorem syntaxErr_sort_key_witness :
    ("abc", sampleWalk "letters" 5) ∈ sampleOdd ∧
    (Atoi "abc").2 = some NumError.syntaxErr ∧
    (Atoi "abc").1 = 0 ∧
    (∃ before after, sortReverse (walkIds sampleOdd) = before ++ 0 :: after ∧
      (∀ x ∈ before, 0 ≤ x) ∧ (∀ x ∈ after, x ≤ 0)) ∧
    (Atoi "9223372036854775808").1 = maxInt ∧
    (Atoi "-9223372036854775809").1 = minInt :=
  ⟨by decide, by decide,
    (syntaxErr_sort_key sampleOdd ("abc", sampleWalk "letters" 5) (by decide) (by decide)).1,
    (syntaxErr_sort_key sampleOdd ("abc", sampleWalk "letters" 5) (by decide) (by decide)).2.1,
    ((syntaxErr_sort_key sampleOdd ("abc", sampleWalk "letters" 5) (by decide) (by decide)).2.2
      "9223372036854775808" (by decide)).trans (by decide),
    ((syntaxErr_sort_key sampleOdd ("abc", sampleWalk "letters" 5) (by decide) (by decide)).2.2
      "-9223372036854775809" (by decide)).trans (by decide)⟩

/-- C10, range errors: for the digit string `"9223372036854775808"`, one past
the largest `int`, `strconv.Atoi` returns a range error together with the
largest `int`, so the sort key is not `0` and the walk is sorted before the
walk with the positive ID `5`. -/
theorem rangeErr_sort_key_not_zero :
    (Atoi "9223372036854775808").2 = some NumError.rangeErr ∧
    (Atoi "9223372036854775808").1 = 9223372036854775807 ∧
    (Atoi "9223372036854775808").1 ≠ 0 ∧
    sortReverse (walkIds [("5", zeroWalk), ("9223372036854775808", zeroWalk)])
      = [9223372036854775807, 5] := by
  decide

end DogReport
